import Mathlib

/-!
Verification development for the MUS.AI museum-recommendation engine.

The Python sources modelled here are `src/vector_store.py` (document store and
FAISS-backed similarity search), `src/pipeline_steps.py` (the vector-search
pipeline step with its query building, audience filtering and fallback merge)
and `src/ingestion.py` (expiry filtering and description chunking).

Modelling conventions:
* Python strings are `String` / `List Char`; Python `str` comparison is the
  lexicographic order on `String`.
* Python ints are `Int`; list slicing and indexing get explicit helpers with
  Python semantics (negative indices, clamping).
* Similarity scores are `ℚ` (Python floats enter only through the external
  embedding model and FAISS; the code only copies them and multiplies by 0.9).
* The external FAISS index and embedding model are abstracted by a `ranking`
  oracle: the full descending hit list that `index.search` would produce for
  the embedded query over the currently stored vectors.  `faissSearch` models
  the `Index.search(x, k)` wrapper, which asserts `k > 0` and returns the top
  `k` entries of that ranking.
* Python exceptions are `Except PyErr`.
* The `while` loop of `chunk_text` is modelled with explicit fuel, because it
  does not terminate on all inputs (see claim C4).
-/

/-- View of `Except` as a sum, to transport decidable equality. -/
def exceptToSum {ε α : Type} : Except ε α → ε ⊕ α
  | .error e => .inl e
  | .ok a => .inr a

instance {ε α : Type} [DecidableEq ε] [DecidableEq α] : DecidableEq (Except ε α) :=
  fun a b =>
    decidable_of_iff (exceptToSum a = exceptToSum b)
      (by cases a <;> cases b <;> simp [exceptToSum])

/-- Python `x or default` on an optional int argument: `None` and `0` are falsy. -/
def pyOrInt (x : Option Int) (d : Int) : Int :=
  match x with
  | none => d
  | some v => if v = 0 then d else v

/-- Normalize one bound of a Python slice `xs[a:b]` for a list of length `len`:
negative bounds count from the end, and bounds are clamped into `[0, len]`. -/
def pySliceIdx (len : Nat) (i : Int) : Nat :=
  if i < 0 then ((len : Int) + i).toNat else min i.toNat len

/-- Python slice `xs[a:b]` (step 1). -/
def pySlice {α : Type} (xs : List α) (a b : Int) : List α :=
  (xs.take (pySliceIdx xs.length b)).drop (pySliceIdx xs.length a)

/-- Python slice `xs[:b]`. -/
def pySliceTo {α : Type} (xs : List α) (b : Int) : List α :=
  xs.take (pySliceIdx xs.length b)

/-- Python indexing `xs[i]`: negative indices count from the end, out-of-range
indices raise `IndexError` (modelled as `none`). -/
def pyIndex {α : Type} (xs : List α) (i : Int) : Option α :=
  let j := if i < 0 then (xs.length : Int) + i else i
  if 0 ≤ j ∧ j < (xs.length : Int) then xs.get? j.toNat else none

/-- Lookup in an insertion-ordered dict modelled as an association list. -/
def lookupD (docs : List (String × α)) (k : String) : Option α :=
  match docs with
  | [] => none
  | (k', v) :: rest => if k' = k then some v else lookupD rest k

/-- Python dict assignment `d[k] = v`: overwrite in place if the key exists,
otherwise append at the end (insertion order preserved). -/
def dictInsert (d : List (String × α)) (k : String) (v : α) : List (String × α) :=
  if d.any (fun p => p.1 == k) then
    d.map (fun p => if p.1 == k then (k, v) else p)
  else d ++ [(k, v)]

/-- Python `text.rfind(c, a, b)`: the largest index of `c` in the slice range
`[a, b)` (bounds normalized as for slices), or `-1` if there is none. -/
def rfind (text : List Char) (c : Char) (a b : Int) : Int :=
  ((List.range (pySliceIdx text.length b)).filter
      (fun i => pySliceIdx text.length a ≤ i && text.getD i ' ' == c)).foldl
    (fun acc i => max acc (i : Int)) (-1)

/-- Python `str.lower()` (ASCII case folding, as applied to file suffixes). -/
def pyLower (s : String) : String := ⟨s.data.map Char.toLower⟩

/-- Whitespace characters removed by Python `str.strip()`. -/
def isWs (c : Char) : Bool :=
  c == ' ' || c == '\t' || c == '\n' || c == '\r' || c == '\x0b' || c == '\x0c'

/-- Python `str.strip()`: drop leading and trailing whitespace. -/
def strip (l : List Char) : List Char :=
  ((l.dropWhile isWs).reverse.dropWhile isWs).reverse

/-! ## Data model (`config.py`, `vector_store.py`, pipeline entities) -/

/-- The fields of the environment-driven `Settings` object used by the core. -/
structure Settings where
  top_k : Int
  chunk_size : Int
  chunk_overlap : Int
deriving DecidableEq

/-- `MuseumDocument` from `vector_store.py`. -/
structure MuseumDocument where
  doc_id : String
  museum_name : String
  exhibition_title : String
  description : String
  start_date : String
  end_date : String
  tags : List String
  location : String
  accessibility : List String
  audience : List String
deriving DecidableEq

/-- The entity record consumed by `VectorSearchStep` (`entities.get(...)` with
its defaults: absent list fields are `[]`, absent scalar fields are `None`). -/
structure Entities where
  hobbies : List String
  preferred_styles : List String
  mood : Option String
  relationship : Option String
deriving DecidableEq

/-- Python exceptions that the modelled code can raise. -/
inductive PyErr where
  | fileNotFoundError
  | valueError
  | assertionError
  | indexError
  | keyError
deriving DecidableEq

/-- Ghost record of one `vector_store.search(...)` invocation (its arguments),
used to observe which searches the pipeline step issues. -/
structure SearchCall where
  query : String
  top_k : Option Int
  filter_tags : Option (List String)
  filter_audience : Option (List String)
deriving DecidableEq

/-- The part of the pipeline context written by `VectorSearchStep.execute`,
plus the ghost log of search calls. -/
structure ExecOut where
  search_results : List MuseumDocument
  similarity_scores : List ℚ
  calls : List SearchCall
deriving DecidableEq

/-- State of a `VectorStore`: the FAISS index is modelled by the ordered list
of embedded texts it holds (`none` = uninitialized), `documents` is the
insertion-ordered id-to-document dict, and `persistCount` counts how many
times `_save_index` wrote to disk. -/
structure VectorStore where
  index : Option (List String)
  documents : List (String × MuseumDocument)
  persistCount : Nat
deriving DecidableEq

/-- A freshly constructed store with no persisted state on disk. -/
def emptyStore : VectorStore := ⟨none, [], 0⟩

/-- The text embedded for a document in `add_documents`:
`f"{doc.exhibition_title}. {doc.description}"`. -/
def embedText (doc : MuseumDocument) : String :=
  doc.exhibition_title ++ ". " ++ doc.description

/-! ## `VectorStore.add_documents` and `VectorStore.search` -/

/-- `VectorStore.add_documents`: an empty batch returns immediately; otherwise
each document is written into the dict (in batch order), its embedding text is
appended to the index (initializing it if needed), and the index is persisted. -/
def VectorStore.add_documents (vs : VectorStore) (docs : List MuseumDocument) : VectorStore :=
  if docs.isEmpty then vs
  else
    { index := some (vs.index.getD [] ++ docs.map embedText),
      documents := docs.foldl (fun d doc => dictInsert d doc.doc_id doc) vs.documents,
      persistCount := vs.persistCount + 1 }

/-- The filter test in `search`: a falsy filter (`None` or `[]`) passes every
document, otherwise at least one filter entry must occur in the attribute list. -/
def passesFilter (f : Option (List String)) (attrs : List String) : Bool :=
  match f with
  | none => true
  | some fs => fs.isEmpty || fs.any (fun t => attrs.contains t)

/-- FAISS `index.search(query, k)` over the ranking oracle for this query:
the Python wrapper asserts `k > 0`, then returns the `k` best hits. -/
def faissSearch (ranking : List (Int × ℚ)) (k : Int) : Except PyErr (List (Int × ℚ)) :=
  if k ≤ 0 then .error .assertionError else .ok (ranking.take k.toNat)

/-- The result loop of `VectorStore.search`: walk the FAISS hits in order,
stop at an invalid index (`-1`), map each position back to a document through
the key order of the dict, apply both filters, and stop once `top_k` results
are collected.  `count` is the number of results collected so far. -/
def searchLoop (docs : List (String × MuseumDocument)) (ft fa : Option (List String))
    (top_k : Int) : Nat → List (Int × ℚ) → Except PyErr (List (MuseumDocument × ℚ))
  | _, [] => .ok []
  | count, (idx, score) :: rest =>
    if idx = -1 then .ok []
    else
      match pyIndex (docs.map Prod.fst) idx with
      | none => .error .indexError
      | some doc_id =>
        match lookupD docs doc_id with
        | none => .error .keyError
        | some doc =>
          if passesFilter ft doc.tags && passesFilter fa doc.audience then
            if top_k ≤ ((count + 1 : Nat) : Int) then .ok [(doc, score)]
            else
              match searchLoop docs ft fa top_k (count + 1) rest with
              | .error e => .error e
              | .ok tail => .ok ((doc, score) :: tail)
          else searchLoop docs ft fa top_k count rest

/-- `VectorStore.search`: empty result if the index is uninitialized or the
store is empty; otherwise `top_k` defaults through Python `or`, FAISS is asked
for `min(top_k * 2, len(documents))` neighbours of the query embedding, and
the hits are filtered and truncated by `searchLoop`. -/
def VectorStore.search (vs : VectorStore) (s : Settings) (ranking : List (Int × ℚ))
    (top_k? : Option Int) (ft fa : Option (List String)) :
    Except PyErr (List (MuseumDocument × ℚ)) :=
  if vs.index.isNone || vs.documents.length == 0 then .ok []
  else
    match faissSearch ranking
        (min (pyOrInt top_k? s.top_k * 2) (vs.documents.length : Int)) with
    | .error e => .error e
    | .ok hits => searchLoop vs.documents ft fa (pyOrInt top_k? s.top_k) 0 hits

/-! ## `VectorSearchStep` (`pipeline_steps.py`) -/

/-- The fixed mood-to-search-terms table in `_build_search_query`. -/
def moodTerms (m : String) : List String :=
  if m = "sad" then ["спокойный", "размышляющий", "тихий"]
  else if m = "happy" then ["веселый", "яркий", "позитивный"]
  else if m = "romantic" then ["романтический", "интимный", "уютный"]
  else if m = "calm" then ["спокойный", "медитативный", "гармоничный"]
  else []

/-- The fixed relationship-to-search-terms table in `_build_search_query`. -/
def relTerms (r : String) : List String :=
  if r = "partner" then ["романтика", "для двоих", "интимный"]
  else if r = "grandparent" then ["семейный", "доступный", "классический"]
  else if r = "parent" then ["семейный", "для всех возрастов"]
  else if r = "friend" then ["интересный", "обсуждаемый"]
  else if r = "child" then ["детский", "интерактивный", "образовательный"]
  else if r = "solo" then ["индивидуальный", "самостоятельный"]
  else []

/-- Python truthiness of an optional string (`None` and `""` are falsy). -/
def pyTruthyStr (x : Option String) : Bool :=
  match x with
  | none => false
  | some s => s != ""

/-- `VectorSearchStep._build_search_query`: space-joined hobbies, mood terms,
style tags and relationship terms, with a generic fallback query. -/
def buildSearchQuery (e : Entities) : String :=
  let parts := e.hobbies
    ++ (if pyTruthyStr e.mood then moodTerms (e.mood.getD "") else [])
    ++ e.preferred_styles
    ++ (if pyTruthyStr e.relationship then relTerms (e.relationship.getD "") else [])
  let parts := if parts.isEmpty then ["выставка", "музей", "искусство"] else parts
  String.intercalate " " parts

/-- `VectorSearchStep._get_audience_filter`: empty for a falsy relationship,
otherwise `audience_map.get(relationship, ["взрослые"])`. -/
def getAudienceFilter (relationship : Option String) : List String :=
  if !(pyTruthyStr relationship) then []
  else
    let r := relationship.getD ""
    if r = "partner" then ["взрослые", "молодежь"]
    else if r = "grandparent" then ["пожилые", "взрослые", "семья"]
    else if r = "parent" then ["семья", "взрослые"]
    else if r = "friend" then ["молодежь", "взрослые"]
    else if r = "child" then ["дети", "семья"]
    else if r = "solo" then ["взрослые", "молодежь", "подростки"]
    else ["взрослые"]

/-- The `filter_tags` argument passed to `search` by `execute`:
hobbies plus preferred styles, with an empty list passed as `None`. -/
def entityFilterTags (e : Entities) : Option (List String) :=
  let ft := e.hobbies ++ e.preferred_styles
  if ft.isEmpty then none else some ft

/-- The `filter_audience` argument passed to `search` by `execute`. -/
def entityFilterAudience (e : Entities) : Option (List String) :=
  let fa := getAudienceFilter e.relationship
  if fa.isEmpty then none else some fa

/-- The fallback merge loop of `execute`: `existing_ids` is computed once from
the filtered results; fallback hits with a fresh id are appended with their
score multiplied by `0.9`, stopping once `settings.top_k` results exist. -/
def mergeGo (top_k : Int) (existing : List String) :
    List (MuseumDocument × ℚ) → List MuseumDocument → List ℚ →
    List MuseumDocument × List ℚ
  | [], docs, scores => (docs, scores)
  | (doc, score) :: rest, docs, scores =>
    if existing.contains doc.doc_id then mergeGo top_k existing rest docs scores
    else
      let docs' := docs ++ [doc]
      let scores' := scores ++ [score * (9 / 10)]
      if top_k ≤ (docs'.length : Int) then (docs', scores')
      else mergeGo top_k existing rest docs' scores'

/-- The fallback merge of `execute`, entered when the filtered search returned
fewer than `settings.top_k` documents. -/
def mergeFallback (top_k : Int) (docs : List MuseumDocument) (scores : List ℚ)
    (fallback : List (MuseumDocument × ℚ)) : List MuseumDocument × List ℚ :=
  mergeGo top_k (docs.map (fun d => d.doc_id)) fallback docs scores

/-- The first search call issued by `execute`. -/
def filteredCall (s : Settings) (vs : VectorStore) (ranking : List (Int × ℚ))
    (e : Entities) : Except PyErr (List (MuseumDocument × ℚ)) :=
  vs.search s ranking (some s.top_k) (entityFilterTags e) (entityFilterAudience e)

/-- The second, unfiltered search call issued by `execute` on shortfall. -/
def fallbackCall (s : Settings) (vs : VectorStore) (ranking : List (Int × ℚ)) :
    Except PyErr (List (MuseumDocument × ℚ)) :=
  vs.search s ranking (some (s.top_k * 2)) none none

/-- `VectorSearchStep.execute` (its search portion): build the query and the
filters from the entities, run the filtered search, on shortfall run a second
unfiltered search for `settings.top_k * 2` results with the same query and
merge, then truncate results and scores to `settings.top_k`.  Both searches
consult the same `ranking` oracle because they embed the same query text.
The `calls` field is a ghost log of the search invocations. -/
def VectorSearchStep.execute (s : Settings) (vs : VectorStore)
    (ranking : List (Int × ℚ)) (entities : Entities) : Except PyErr ExecOut :=
  match filteredCall s vs ranking entities with
  | .error e => .error e
  | .ok results =>
    if ((results.map Prod.fst).length : Int) < s.top_k then
      match fallbackCall s vs ranking with
      | .error e => .error e
      | .ok fallback_results =>
        .ok ⟨pySliceTo (mergeFallback s.top_k (results.map Prod.fst)
                (results.map Prod.snd) fallback_results).1 s.top_k,
             pySliceTo (mergeFallback s.top_k (results.map Prod.fst)
                (results.map Prod.snd) fallback_results).2 s.top_k,
             [⟨buildSearchQuery entities, some s.top_k, entityFilterTags entities,
                entityFilterAudience entities⟩,
              ⟨buildSearchQuery entities, some (s.top_k * 2), none, none⟩]⟩
    else
      .ok ⟨pySliceTo (results.map Prod.fst) s.top_k,
           pySliceTo (results.map Prod.snd) s.top_k,
           [⟨buildSearchQuery entities, some s.top_k, entityFilterTags entities,
              entityFilterAudience entities⟩]⟩

/-! ## Ingestion (`ingestion.py`) -/

/-- The sentence-terminator search of the loop body: `rfind` of `.`, falling
back to `!`, falling back to `?`, over the window `[start, e0)`. -/
def sentenceEnd (text : List Char) (start e0 : Int) : Int :=
  let se := rfind text '.' start e0
  let se := if se = -1 then rfind text '!' start e0 else se
  if se = -1 then rfind text '?' start e0 else se

/-- The effective window end: when the raw end `start + chunk_size` is inside
the text and a sentence terminator exists strictly after `start`, cut just
past that terminator; otherwise use the raw end. -/
def chunkEnd (text : List Char) (cs : Int) (start : Int) : Int :=
  if start + cs < (text.length : Int) then
    if sentenceEnd text start (start + cs) ≠ -1 ∧
        start < sentenceEnd text start (start + cs) then
      sentenceEnd text start (start + cs) + 1
    else start + cs
  else start + cs

/-- One iteration of the `chunk_text` while loop at window start `start`:
emit the stripped window `[start, chunkEnd)` if nonempty, and return the next
start `end - overlap` together with the emitted chunk. -/
def chunkBody (text : List Char) (cs ov : Int) (start : Int) : Int × Option (List Char) :=
  let chunk := strip (pySlice text start (chunkEnd text cs start))
  (chunkEnd text cs start - ov, if chunk.isEmpty then none else some chunk)

/-- The `chunk_text` while loop, with explicit fuel (`none` = the given fuel
was exhausted without the loop terminating). -/
def chunkLoop (text : List Char) (cs ov : Int) :
    Nat → Int → List (List Char) → Option (List (List Char))
  | 0, _, _ => none
  | fuel + 1, start, acc =>
    if start < (text.length : Int) then
      let step := chunkBody text cs ov start
      let acc' := match step.2 with | some c => acc ++ [c] | none => acc
      if (text.length : Int) ≤ step.1 then some acc'
      else chunkLoop text cs ov fuel step.1 acc'
    else some acc

/-- `chunk_text(text, chunk_size, overlap)`: texts no longer than the chunk
size are returned whole, otherwise the windowed loop runs. -/
def chunk_text (fuel : Nat) (text : List Char) (cs ov : Int) : Option (List (List Char)) :=
  if (text.length : Int) ≤ cs then some [text]
  else chunkLoop text cs ov fuel 0 []

/-- `create_exhibition_chunks`: each chunk becomes a document sharing every
non-description field, with id `f"{doc.doc_id}_chunk_{i}"`. -/
def create_exhibition_chunks (fuel : Nat) (s : Settings) (doc : MuseumDocument) :
    Option (List MuseumDocument) :=
  (chunk_text fuel doc.description.data s.chunk_size s.chunk_overlap).map
    (fun chunks => chunks.mapIdx (fun i c =>
      { doc with doc_id := doc.doc_id ++ "_chunk_" ++ toString i, description := ⟨c⟩ }))

/-- The chunking pass of `ingest_data`: long descriptions are chunked, short
documents pass through unchanged. -/
def buildAllChunks (fuel : Nat) (s : Settings) :
    List MuseumDocument → Option (List MuseumDocument)
  | [] => some []
  | doc :: rest => do
    let headChunks ←
      if s.chunk_size < (doc.description.length : Int)
      then create_exhibition_chunks fuel s doc
      else some [doc]
    let tail ← buildAllChunks fuel s rest
    pure (headChunks ++ tail)

/-- The expiry filter of `ingest_data`: keep documents with
`doc.end_date >= current_date` (lexicographic string comparison). -/
def activeDocuments (documents : List MuseumDocument) (current_date : String) :
    List MuseumDocument :=
  documents.filter (fun doc => current_date ≤ doc.end_date)

/-- `ingest_data`, with file-system interaction abstracted: `pathExists` is
whether the source path exists, `suffix` is `Path(data_path).suffix`, and
`loaded` stands for the documents the csv/json loader would parse from the
file.  Returns the resulting store state (unchanged when an exception is
raised, because every raise happens before `add_documents`) together with the
count or the exception; `.ok none` means chunking exhausted its fuel. -/
def ingest_data (fuel : Nat) (s : Settings) (vs : VectorStore) (pathExists : Bool)
    (suffix : String) (loaded : List MuseumDocument) (today : String)
    (file_format : String) : VectorStore × Except PyErr (Option Nat) :=
  if !pathExists then (vs, .error .fileNotFoundError)
  else
    let fmt? :=
      if file_format = "auto" then
        if pyLower suffix = ".csv" then some "csv"
        else if pyLower suffix = ".json" then some "json"
        else none
      else some file_format
    match fmt? with
    | none => (vs, .error .valueError)
    | some fmt =>
      if fmt = "csv" ∨ fmt = "json" then
        let active := activeDocuments loaded today
        match buildAllChunks fuel s active with
        | none => (vs, .ok none)
        | some all_chunks =>
          (vs.add_documents all_chunks, .ok (some all_chunks.length))
      else (vs, .error .valueError)

/-! ## Spec-side definition for the chunking round-trip (claim C6) -/

/-- Modelled from the wording of the spec sentence on the chunking round-trip:
"concatenating chunk descriptions (minus overlap)" — the first chunk followed
by every later chunk with its first `overlap` characters removed. -/
def specConcatMinusOverlap (chunks : List (List Char)) (overlap : Nat) : List Char :=
  match chunks with
  | [] => []
  | c :: rest => c ++ (rest.map (fun d => d.drop overlap)).flatten

/-! ## Concrete fixtures used by witnesses and counterexamples -/

/-- The default values of the search configuration (`config.py`). -/
def defaultSettings : Settings := ⟨5, 512, 50⟩

/-- A small settings record with `top_k = 2`, used by concrete scenarios. -/
def sTwo : Settings := ⟨2, 512, 50⟩

/-- A sample document tagged `x`. -/
def docA : MuseumDocument :=
  ⟨"A", "mA", "tA", "dA", "2025-01-01", "2026-12-31", ["x"], "locA", [], ["взрослые"]⟩

/-- A sample document tagged `y`. -/
def docB : MuseumDocument :=
  ⟨"B", "mB", "tB", "dB", "2025-01-01", "2026-12-31", ["y"], "locB", [], ["семья"]⟩

/-- A store holding `docA` and `docB`, built through `add_documents`. -/
def vsAB : VectorStore := VectorStore.add_documents emptyStore [docA, docB]

/-- Entities with the single hobby `x`. -/
def entX : Entities := ⟨["x"], [], none, none⟩

/-- A well-formed ranking oracle for `vsAB`: position 0 scores 1, position 1
scores 1/2. -/
def rankingAB : List (Int × ℚ) := [(0, 1), (1, 1/2)]

/-- The text on which the chunking loop of `chunk_text` never terminates with
`chunk_size = 10`, `overlap = 5`: its only sentence terminator sits at index 4,
so every window `[0, 10)` is cut at `end = 5` and the next start is `5 - 5 = 0`
again. -/
def c4text : List Char := "abcd.fghijklmnop".data

/-! ## Claim theorems -/

/-- C10: calling `add_documents` with an empty document list is a complete
no-op: the returned store is the input store — same dict, same (possibly
uninitialized) index, and the persistence counter is unchanged, so nothing
was written to disk. -/
theorem c10_add_empty_noop (vs : VectorStore) : vs.add_documents [] = vs := rfl

/-- C5: a raw document survives the expiry filter of `ingest_data` if and
only if it is in the batch and its `endDate` is not lexicographically before
the ingestion-time current date; equivalently, it is dropped exactly when
`end_date < today`, and kept whenever `end_date >= today`. -/
theorem c5_expiry_filter (documents : List MuseumDocument) (today : String)
    (d : MuseumDocument) :
    d ∈ activeDocuments documents today ↔ d ∈ documents ∧ ¬(d.end_date < today) := by
  simp only [activeDocuments, List.mem_filter, decide_eq_true_eq, not_lt]

/-- C3 counterexample: the relationship type `family` is produced by the
request parser (`'семья' -> 'family'`) but has no entry in `audience_map`,
and `_get_audience_filter` returns the default `["взрослые"]` for it, not the
empty filter the claim requires for unmapped types. -/
theorem c3_counterexample :
    getAudienceFilter (some "family") = ["взрослые"] ∧
      getAudienceFilter (some "family") ≠ [] := by decide

/-- C3 (amended): the audience filter is empty when the relationship is
absent (or the empty string); when the relationship is present, nonempty and
not one of the six mapped types, the filter is the default `["взрослые"]`
rather than the empty list. -/
theorem c3_audience_amended (r : String)
    (hr : r ∉ ["partner", "grandparent", "parent", "friend", "child", "solo"])
    (hne : r ≠ "") :
    getAudienceFilter none = [] ∧ getAudienceFilter (some "") = [] ∧
      getAudienceFilter (some r) = ["взрослые"] := by
  simp only [List.mem_cons, List.mem_singleton, not_or] at hr
  obtain ⟨h1, h2, h3, h4, h5, h6, -⟩ := hr
  refine ⟨rfl, rfl, ?_⟩
  simp [getAudienceFilter, pyTruthyStr, hne, h1, h2, h3, h4, h5, h6]

/-- C3 witness: the amended claim applied to the concrete unmapped
relationship `family`. -/
theorem c3_witness :
    ("family" ∉ ["partner", "grandparent", "parent", "friend", "child", "solo"] ∧
        "family" ≠ "") ∧
      (getAudienceFilter none = [] ∧ getAudienceFilter (some "") = [] ∧
        getAudienceFilter (some "family") = ["взрослые"]) :=
  ⟨⟨by decide, by decide⟩, c3_audience_amended "family" (by decide) (by decide)⟩

/-- Helper for C4: from window start `0` the loop on `c4text` always returns
to window start `0`, so no amount of fuel completes it. -/
theorem c4_loop_stuck (fuel : Nat) :
    ∀ acc, chunkLoop c4text 10 5 fuel 0 acc = none := by
  induction fuel with
  | zero => intro acc; rfl
  | succ n ih =>
    intro acc
    have h : chunkLoop c4text 10 5 (n + 1) 0 acc =
        chunkLoop c4text 10 5 n 0 (acc ++ ["abcd.".data]) := rfl
    rw [h]
    exact ih (acc ++ ["abcd.".data])

/-- C4: the chunking loop of `chunk_text` does NOT terminate on every input
with `0 ≤ overlap < chunk_size`.  On `c4text` with `chunk_size = 10` and
`overlap = 5` (a legal configuration), the sentence terminator at index 4
forces `end = 5` in every iteration, so the next start `end - overlap` is `0`
again and the window start never reaches the text end: the fuelled model
returns `none` for every amount of fuel. -/
theorem c4_chunk_text_diverges : ∀ fuel : Nat, chunk_text fuel c4text 10 5 = none := by
  intro fuel
  have h : chunk_text fuel c4text 10 5 = chunkLoop c4text 10 5 fuel 0 [] := rfl
  rw [h]
  exact c4_loop_stuck fuel []

/-- C9 counterexample: with an existing source whose extension is `.csv`
(perfectly detectable) but an explicit `file_format="xml"`, `ingest_data`
raises the format error even though the claim, which ties the format error to
"cannot be detected from the extension", demands success here. -/
theorem c9_counterexample :
    (ingest_data 1 defaultSettings emptyStore true ".csv" [] "2026-01-01" "xml").2
        = .error .valueError ∧
      pyLower ".csv" = ".csv" := by decide

/-- C9 (amended): `ingest_data` fails with the not-found error exactly when
the source path does not exist; it fails with the format error exactly when
the path exists and either the format is `auto` with an extension that is
neither `.csv` nor `.json`, or the format is explicit and neither `csv` nor
`json` (regardless of the extension); and on any error the store is returned
unchanged, since every raise happens before `add_documents`. -/
theorem c9_errors_amended (fuel : Nat) (s : Settings) (vs : VectorStore)
    (pathExists : Bool) (suffix : String) (loaded : List MuseumDocument)
    (today : String) (fmt : String) :
    ((ingest_data fuel s vs pathExists suffix loaded today fmt).2
        = .error .fileNotFoundError ↔ pathExists = false) ∧
    ((ingest_data fuel s vs pathExists suffix loaded today fmt).2
        = .error .valueError ↔ pathExists = true ∧
          ((fmt = "auto" ∧ pyLower suffix ≠ ".csv" ∧ pyLower suffix ≠ ".json") ∨
           (fmt ≠ "auto" ∧ fmt ≠ "csv" ∧ fmt ≠ "json"))) ∧
    (∀ e, (ingest_data fuel s vs pathExists suffix loaded today fmt).2 = .error e →
        (ingest_data fuel s vs pathExists suffix loaded today fmt).1 = vs) := by
  cases pathExists with
  | false => simp [ingest_data]
  | true =>
    by_cases hauto : fmt = "auto"
    · subst hauto
      by_cases hcsv : pyLower suffix = ".csv"
      · cases hbc : buildAllChunks fuel s (activeDocuments loaded today) <;>
          simp [ingest_data, hcsv, hbc]
      · by_cases hjson : pyLower suffix = ".json"
        · cases hbc : buildAllChunks fuel s (activeDocuments loaded today) <;>
            simp [ingest_data, hcsv, hjson, hbc]
        · simp [ingest_data, hcsv, hjson]
    · by_cases hcsv : fmt = "csv"
      · subst hcsv
        cases hbc : buildAllChunks fuel s (activeDocuments loaded today) <;>
          simp [ingest_data, hbc]
      · by_cases hjson : fmt = "json"
        · subst hjson
          cases hbc : buildAllChunks fuel s (activeDocuments loaded today) <;>
            simp [ingest_data, hbc]
        · simp [ingest_data, hauto, hcsv, hjson]

/-- C9 witness: the amended claim at a concrete successful configuration
(existing path, `auto` format, `.json` extension). -/
theorem c9_witness :
    ((ingest_data 1 defaultSettings emptyStore true ".json" [] "2026-01-01" "auto").2
        = .error .fileNotFoundError ↔ true = false) ∧
    ((ingest_data 1 defaultSettings emptyStore true ".json" [] "2026-01-01" "auto").2
        = .error .valueError ↔ true = true ∧
          (("auto" = "auto" ∧ pyLower ".json" ≠ ".csv" ∧ pyLower ".json" ≠ ".json") ∨
           ("auto" ≠ "auto" ∧ "auto" ≠ "csv" ∧ "auto" ≠ "json"))) ∧
    (∀ e, (ingest_data 1 defaultSettings emptyStore true ".json" [] "2026-01-01" "auto").2
          = .error e →
        (ingest_data 1 defaultSettings emptyStore true ".json" [] "2026-01-01" "auto").1
          = emptyStore) :=
  c9_errors_amended 1 defaultSettings emptyStore true ".json" [] "2026-01-01" "auto"

/-! ## Helper lemmas about the Python helpers and the search loop -/

theorem pyIndex_pos {α : Type} (xs : List α) (i : Int) (h0 : 0 ≤ i)
    (hl : i < (xs.length : Int)) : pyIndex xs i = xs.get? i.toNat := by
  have h1 : ¬ i < 0 := by omega
  simp only [pyIndex, h1, if_false]
  rw [if_pos ⟨h0, hl⟩]

theorem lookupD_isSome (docs : List (String × MuseumDocument)) (k : String)
    (h : k ∈ docs.map Prod.fst) : ∃ v, lookupD docs k = some v := by
  induction docs with
  | nil => simp at h
  | cons p rest ih =>
    obtain ⟨k', v⟩ := p
    by_cases he : k' = k
    · exact ⟨v, by simp [lookupD, he]⟩
    · simp only [List.map_cons, List.mem_cons] at h
      rcases h with h | h
      · exact absurd h.symm he
      · obtain ⟨w, hw⟩ := ih h
        exact ⟨w, by simp [lookupD, he, hw]⟩

theorem pySliceTo_length_le {α : Type} (xs : List α) (b : Int) (hb : 0 ≤ b) :
    (pySliceTo xs b).length ≤ b.toNat := by
  have h1 : ¬ b < 0 := by omega
  simp only [pySliceTo, pySliceIdx, h1, if_false, List.length_take]
  omega

theorem pySliceTo_all {α : Type} (xs : List α) (b : Int) (hb : (xs.length : Int) ≤ b) :
    pySliceTo xs b = xs := by
  have h1 : pySliceIdx xs.length b = xs.length := by
    have : ¬ b < 0 := by omega
    simp only [pySliceIdx, this, if_false]
    omega
  rw [pySliceTo, h1, List.take_length]

theorem passesFilter_some (fs attrs : List String) (hne : fs ≠ [])
    (h : passesFilter (some fs) attrs = true) : ∃ t, t ∈ fs ∧ t ∈ attrs := by
  simp only [passesFilter, Bool.or_eq_true, List.isEmpty_iff, List.any_eq_true] at h
  rcases h with h | h
  · exact absurd h hne
  · obtain ⟨t, ht, hc⟩ := h
    exact ⟨t, ht, by simpa using hc⟩

/-- One-step unfolding of `searchLoop` on a cons cell. -/
theorem searchLoop_cons (docs : List (String × MuseumDocument))
    (ft fa : Option (List String)) (k : Int) (count : Nat) (idx : Int) (score : ℚ)
    (rest : List (Int × ℚ)) :
    searchLoop docs ft fa k count ((idx, score) :: rest) =
      if idx = -1 then .ok []
      else
        match pyIndex (docs.map Prod.fst) idx with
        | none => .error .indexError
        | some doc_id =>
          match lookupD docs doc_id with
          | none => .error .keyError
          | some doc =>
            if passesFilter ft doc.tags && passesFilter fa doc.audience then
              if k ≤ ((count + 1 : Nat) : Int) then .ok [(doc, score)]
              else
                match searchLoop docs ft fa k (count + 1) rest with
                | .error e => .error e
                | .ok tail => .ok ((doc, score) :: tail)
            else searchLoop docs ft fa k count rest := rfl

/-- The search loop never raises when every hit index is in range. -/
theorem searchLoop_ok (docs : List (String × MuseumDocument))
    (ft fa : Option (List String)) (k : Int) :
    ∀ (hits : List (Int × ℚ)) (count : Nat),
      (∀ p ∈ hits, 0 ≤ p.1 ∧ p.1 < (docs.length : Int)) →
      ∃ res, searchLoop docs ft fa k count hits = .ok res := by
  intro hits
  induction hits with
  | nil => exact fun count _ => ⟨[], rfl⟩
  | cons hd rest ih =>
    intro count hb
    obtain ⟨idx, score⟩ := hd
    by_cases hneg : idx = -1
    · exact ⟨[], by rw [searchLoop_cons, if_pos hneg]⟩
    · obtain ⟨h0, hl⟩ := hb (idx, score) (List.mem_cons_self _ _)
      have hl' : idx < ((docs.map Prod.fst).length : Int) := by
        rwa [List.length_map]
      have hget : ∃ key, (docs.map Prod.fst).get? idx.toNat = some key := by
        rw [List.get?_eq_getElem?]
        have hlt : idx.toNat < (docs.map Prod.fst).length := by
          rw [List.length_map]; omega
        exact ⟨(docs.map Prod.fst)[idx.toNat], List.getElem?_eq_getElem hlt⟩
      obtain ⟨key, hkey⟩ := hget
      have hpy : pyIndex (docs.map Prod.fst) idx = some key := by
        rw [pyIndex_pos _ _ h0 hl', hkey]
      have hmem : key ∈ docs.map Prod.fst := List.get?_mem hkey
      obtain ⟨doc, hdoc⟩ := lookupD_isSome docs key hmem
      have hrest : ∀ p ∈ rest, 0 ≤ p.1 ∧ p.1 < (docs.length : Int) :=
        fun p hp => hb p (List.mem_cons_of_mem _ hp)
      rw [searchLoop_cons, if_neg hneg, hpy]
      simp only
      rw [hdoc]
      simp only
      by_cases hpass : (passesFilter ft doc.tags && passesFilter fa doc.audience) = true
      · rw [if_pos hpass]
        by_cases hbreak : k ≤ ((count + 1 : Nat) : Int)
        · exact ⟨[(doc, score)], by rw [if_pos hbreak]⟩
        · obtain ⟨tail, htail⟩ := ih (count + 1) hrest
          refine ⟨(doc, score) :: tail, ?_⟩
          rw [if_neg hbreak, htail]
      · rw [if_neg hpass]
        exact ih count hrest

/-- Everything the search loop returns passed both filters. -/
theorem searchLoop_passes (docs : List (String × MuseumDocument))
    (ft fa : Option (List String)) (k : Int) :
    ∀ (hits : List (Int × ℚ)) (count : Nat) (res : List (MuseumDocument × ℚ)),
      searchLoop docs ft fa k count hits = .ok res →
      ∀ p ∈ res, passesFilter ft p.1.tags = true ∧ passesFilter fa p.1.audience = true := by
  intro hits
  induction hits with
  | nil =>
    intro count res h p hp
    simp only [searchLoop] at h
    obtain rfl : ([] : List (MuseumDocument × ℚ)) = res := by injection h
    simp at hp
  | cons hd rest ih =>
    intro count res h p hp
    obtain ⟨idx, score⟩ := hd
    rw [searchLoop_cons] at h
    split at h
    · obtain rfl : ([] : List (MuseumDocument × ℚ)) = res := by injection h
      simp at hp
    · split at h
      · simp at h
      · split at h
        · simp at h
        · rename_i doc heqdoc
          split at h
          · rename_i hpass
            rw [Bool.and_eq_true] at hpass
            split at h
            · obtain rfl : [(doc, score)] = res := by injection h
              simp only [List.mem_singleton] at hp
              subst hp
              exact ⟨hpass.1, hpass.2⟩
            · split at h
              · simp at h
              · rename_i tail htail
                obtain rfl : (doc, score) :: tail = res := by injection h
                rcases List.mem_cons.mp hp with hph | hpt
                · subst hph; exact ⟨hpass.1, hpass.2⟩
                · exact ih (count + 1) tail htail p hpt
          · exact ih count res h p hp

/-- `top_k or settings.top_k` when the explicit argument equals the setting. -/
theorem pyOrInt_some_self (k : Int) : pyOrInt (some k) k = k := by
  simp [pyOrInt]

/-- `search` returns the empty list when the index is uninitialized or the
store is empty, whatever `top_k` is. -/
theorem search_empty (vs : VectorStore) (s : Settings) (ranking : List (Int × ℚ))
    (tk? : Option Int) (ft fa : Option (List String))
    (h : vs.index = none ∨ vs.documents = []) :
    VectorStore.search vs s ranking tk? ft fa = .ok [] := by
  unfold VectorStore.search
  rw [if_pos]
  rcases h with h | h <;> simp [h]

/-- `search` raises nothing when the effective `top_k` is at least 1 and the
ranking oracle only produces in-range positions. -/
theorem search_ok (vs : VectorStore) (s : Settings) (ranking : List (Int × ℚ))
    (tk? : Option Int) (ft fa : Option (List String))
    (hrank : ∀ p ∈ ranking, 0 ≤ p.1 ∧ p.1 < (vs.documents.length : Int))
    (hk : 1 ≤ pyOrInt tk? s.top_k) :
    ∃ res, VectorStore.search vs s ranking tk? ft fa = .ok res := by
  unfold VectorStore.search
  by_cases hguard : (vs.index.isNone || vs.documents.length == 0) = true
  · rw [if_pos hguard]; exact ⟨[], rfl⟩
  · rw [if_neg hguard]
    have hlen : vs.documents.length ≠ 0 := by
      intro h
      exact hguard (by simp [h])
    have hkpos : ¬ (min (pyOrInt tk? s.top_k * 2) (vs.documents.length : Int) ≤ 0) := by
      have h1 : (1 : Int) ≤ (vs.documents.length : Int) := by
        have := Nat.one_le_iff_ne_zero.mpr hlen
        exact_mod_cast this
      omega
    simp only [faissSearch, if_neg hkpos]
    apply searchLoop_ok
    intro p hp
    exact hrank p (List.take_subset _ _ hp)

/-- C7: for every completed `search` call, each returned document intersects a
nonempty `filter_tags` in at least one tag, and intersects a nonempty
`filter_audience` in at least one audience type. -/
theorem c7_filter_correct (vs : VectorStore) (s : Settings) (ranking : List (Int × ℚ))
    (tk? : Option Int) (ft fa : Option (List String)) (res : List (MuseumDocument × ℚ))
    (hok : VectorStore.search vs s ranking tk? ft fa = .ok res)
    (d : MuseumDocument) (q : ℚ) (hmem : (d, q) ∈ res) :
    (∀ fs, ft = some fs → fs ≠ [] → ∃ t, t ∈ fs ∧ t ∈ d.tags) ∧
    (∀ fsa, fa = some fsa → fsa ≠ [] → ∃ a, a ∈ fsa ∧ a ∈ d.audience) := by
  unfold VectorStore.search at hok
  split at hok
  · obtain rfl : ([] : List (MuseumDocument × ℚ)) = res := by injection hok
    simp at hmem
  · split at hok
    · simp at hok
    · rename_i hits hhits
      have hps := searchLoop_passes vs.documents ft fa _ hits 0 res hok (d, q) hmem
      constructor
      · intro fs hfs hne
        subst hfs
        exact passesFilter_some fs d.tags hne hps.1
      · intro fsa hfsa hne
        subst hfsa
        exact passesFilter_some fsa d.audience hne hps.2

/-- C7 witness: the filter guarantee at a concrete search over the two-document
store, with `filter_tags = ["x"]`. -/
theorem c7_witness :
    (∀ fs, (some ["x"] : Option (List String)) = some fs → fs ≠ [] →
        ∃ t, t ∈ fs ∧ t ∈ docA.tags) ∧
    (∀ fsa, (none : Option (List String)) = some fsa → fsa ≠ [] →
        ∃ a, a ∈ fsa ∧ a ∈ docA.audience) :=
  c7_filter_correct vsAB sTwo rankingAB (some 2) (some ["x"]) none [(docA, 1)]
    (by decide) docA 1 (by decide)

/-- C1 counterexample: `recommend` with `topK = -1` over a nonempty store does
not return an empty list — the FAISS search is invoked with
`min(top_k * 2, len(documents)) = -2`, and its `k > 0` assertion raises. -/
theorem c1_counterexample :
    VectorSearchStep.execute ⟨-1, 512, 50⟩ vsAB rankingAB entX
      = .error .assertionError := by decide

/-- C1 (amended): with a well-formed ranking oracle, `recommend` (the search
portion of `VectorSearchStep.execute` with `topK = settings.top_k`) returns,
for every `topK ≥ 1`, a result list and score list of length at most `topK`
without raising; and whenever the index is uninitialized or the store holds no
documents it returns empty lists without raising, for every `topK`.  For
`topK ≤ 0` over a nonempty store it instead propagates the FAISS assertion
(see the counterexample). -/
theorem c1_topk_amended (s : Settings) (vs : VectorStore) (ranking : List (Int × ℚ))
    (entities : Entities)
    (hrank : ∀ p ∈ ranking, 0 ≤ p.1 ∧ p.1 < (vs.documents.length : Int)) :
    (1 ≤ s.top_k → ∃ out, VectorSearchStep.execute s vs ranking entities = .ok out ∧
        out.search_results.length ≤ s.top_k.toNat ∧
        out.similarity_scores.length ≤ s.top_k.toNat) ∧
    (vs.index = none ∨ vs.documents = [] →
      ∃ out, VectorSearchStep.execute s vs ranking entities = .ok out ∧
        out.search_results = [] ∧ out.similarity_scores = []) := by
  constructor
  · intro hk
    have hk1 : 1 ≤ pyOrInt (some s.top_k) s.top_k := by
      rw [pyOrInt_some_self]; exact hk
    have hk2 : 1 ≤ pyOrInt (some (s.top_k * 2)) s.top_k := by
      simp only [pyOrInt]; split <;> omega
    obtain ⟨res1, hres1⟩ :=
      search_ok vs s ranking (some s.top_k) (entityFilterTags entities)
        (entityFilterAudience entities) hrank hk1
    have hres1' : filteredCall s vs ranking entities = .ok res1 := hres1
    unfold VectorSearchStep.execute
    rw [hres1']
    simp only
    by_cases hshort : ((res1.map Prod.fst).length : Int) < s.top_k
    · rw [if_pos hshort]
      obtain ⟨res2, hres2⟩ := search_ok vs s ranking (some (s.top_k * 2)) none none hrank hk2
      have hres2' : fallbackCall s vs ranking = .ok res2 := hres2
      rw [hres2']
      simp only
      refine ⟨_, rfl, ?_, ?_⟩ <;> exact pySliceTo_length_le _ _ (by omega)
    · rw [if_neg hshort]
      exact ⟨_, rfl, pySliceTo_length_le _ _ (by omega), pySliceTo_length_le _ _ (by omega)⟩
  · intro hemp
    have h1 : filteredCall s vs ranking entities = .ok [] :=
      search_empty vs s ranking (some s.top_k) (entityFilterTags entities)
        (entityFilterAudience entities) hemp
    have h2 : fallbackCall s vs ranking = .ok [] :=
      search_empty vs s ranking (some (s.top_k * 2)) none none hemp
    unfold VectorSearchStep.execute
    rw [h1]
    simp only
    by_cases hshort : ((([] : List (MuseumDocument × ℚ)).map Prod.fst).length : Int) < s.top_k
    · rw [if_pos hshort]
      rw [h2]
      simp only
      exact ⟨_, rfl, by simp [mergeFallback, mergeGo, pySliceTo],
        by simp [mergeFallback, mergeGo, pySliceTo]⟩
    · rw [if_neg hshort]
      exact ⟨_, rfl, by simp [pySliceTo], by simp [pySliceTo]⟩

/-- C1 witness: the amended claim at the concrete two-document store with
`topK = 2`. -/
theorem c1_witness :
    ∃ out, VectorSearchStep.execute sTwo vsAB rankingAB entX = .ok out ∧
      out.search_results.length ≤ sTwo.top_k.toNat ∧
      out.similarity_scores.length ≤ sTwo.top_k.toNat :=
  (c1_topk_amended sTwo vsAB rankingAB entX (by decide)).1 (by decide)

/-! ## C8: the index-position / insertion-order invariant -/

/-- A store built from scratch through a sequence of `add_documents` calls. -/
def buildStore (batches : List (List MuseumDocument)) : VectorStore :=
  batches.foldl VectorStore.add_documents emptyStore

/-- The ordered embedded texts the similarity index holds. -/
def indexTexts (vs : VectorStore) : List String := vs.index.getD []

theorem dictInsert_fresh (d : List (String × MuseumDocument)) (k : String)
    (v : MuseumDocument) (hk : ∀ p ∈ d, p.1 ≠ k) :
    dictInsert d k v = d ++ [(k, v)] := by
  have hany : d.any (fun p => p.1 == k) = false := by
    rw [List.any_eq_false]
    intro p hp
    simpa using hk p hp
  simp [dictInsert, hany]

theorem foldl_dictInsert_fresh (docs : List MuseumDocument) :
    ∀ d : List (String × MuseumDocument),
      (∀ doc ∈ docs, ∀ p ∈ d, p.1 ≠ doc.doc_id) →
      (docs.map (fun doc => doc.doc_id)).Nodup →
      docs.foldl (fun d doc => dictInsert d doc.doc_id doc) d
        = d ++ docs.map (fun doc => (doc.doc_id, doc)) := by
  induction docs with
  | nil => intro d _ _; simp
  | cons doc rest ih =>
    intro d hfresh hnd
    rcases List.nodup_cons.mp hnd with ⟨hnotin, hndrest⟩
    simp only [List.foldl_cons]
    rw [dictInsert_fresh d doc.doc_id doc
        (fun p hp => hfresh doc (List.mem_cons_self _ _) p hp)]
    rw [ih (d ++ [(doc.doc_id, doc)]) ?_ hndrest]
    · simp
    · intro doc' hdoc' p hp
      rcases List.mem_append.mp hp with hp | hp
      · exact hfresh doc' (List.mem_cons_of_mem _ hdoc') p hp
      · simp only [List.mem_singleton] at hp
        subst hp
        intro heq
        apply hnotin
        have heq' : doc.doc_id = doc'.doc_id := heq
        have hgoal : doc.doc_id ∈ List.map (fun doc => doc.doc_id) rest := by
          rw [heq']
          exact List.mem_map_of_mem (fun d => d.doc_id) hdoc'
        exact hgoal

/-- `add_documents` with fresh, pairwise-distinct ids appends the batch to the
dict and its embedding texts to the index, in the same order. -/
theorem add_documents_fresh (vs : VectorStore) (docs : List MuseumDocument)
    (hnd : (docs.map (fun d => d.doc_id)).Nodup)
    (hfresh : ∀ doc ∈ docs, doc.doc_id ∉ vs.documents.map Prod.fst) :
    (vs.add_documents docs).documents
        = vs.documents ++ docs.map (fun doc => (doc.doc_id, doc)) ∧
    indexTexts (vs.add_documents docs) = indexTexts vs ++ docs.map embedText := by
  by_cases hd : docs.isEmpty
  · have hnil : docs = [] := by
      cases docs with
      | nil => rfl
      | cons a l => simp at hd
    subst hnil
    simp [VectorStore.add_documents, indexTexts]
  · unfold VectorStore.add_documents
    rw [if_neg hd]
    refine ⟨?_, rfl⟩
    apply foldl_dictInsert_fresh docs vs.documents ?_ hnd
    intro doc hdoc p hp
    intro heq
    exact hfresh doc hdoc (heq ▸ List.mem_map_of_mem Prod.fst hp)

theorem buildStore_go (batches : List (List MuseumDocument)) :
    ∀ vs : VectorStore,
      indexTexts vs = vs.documents.map (fun p => embedText p.2) →
      ((vs.documents.map Prod.fst) ++ batches.flatten.map (fun d => d.doc_id)).Nodup →
      indexTexts (batches.foldl VectorStore.add_documents vs)
          = (batches.foldl VectorStore.add_documents vs).documents.map
              (fun p => embedText p.2) ∧
      (batches.foldl VectorStore.add_documents vs).documents.map Prod.fst
          = vs.documents.map Prod.fst ++ batches.flatten.map (fun d => d.doc_id) := by
  induction batches with
  | nil =>
    intro vs h1 _
    exact ⟨h1, by simp⟩
  | cons b rest ih =>
    intro vs h1 h2
    simp only [List.flatten_cons, List.map_append] at h2
    rcases List.nodup_append.mp h2 with ⟨hk, hmid, hdisj⟩
    rcases List.nodup_append.mp hmid with ⟨hbnd, hrestnd, hdisj2⟩
    have hfresh : ∀ doc ∈ b, doc.doc_id ∉ vs.documents.map Prod.fst := by
      intro doc hdoc hin
      exact hdisj hin (List.mem_append_left _
        (List.mem_map_of_mem (fun d => d.doc_id) hdoc))
    obtain ⟨hdocs, htexts⟩ := add_documents_fresh vs b hbnd hfresh
    have hkeys : (vs.add_documents b).documents.map Prod.fst
        = vs.documents.map Prod.fst ++ b.map (fun d => d.doc_id) := by
      rw [hdocs, List.map_append, List.map_map]
      rfl
    have h1' : indexTexts (vs.add_documents b)
        = (vs.add_documents b).documents.map (fun p => embedText p.2) := by
      rw [htexts, hdocs, List.map_append, h1, List.map_map]
      rfl
    have h2' : ((vs.add_documents b).documents.map Prod.fst
        ++ rest.flatten.map (fun d => d.doc_id)).Nodup := by
      rw [hkeys, List.append_assoc]
      simpa only [List.flatten_cons, List.map_append] using h2
    obtain ⟨ha, hb2⟩ := ih (vs.add_documents b) h1' h2'
    refine ⟨by simpa using ha, ?_⟩
    simp only [List.foldl_cons] at *
    rw [hb2, hkeys, List.append_assoc, List.flatten_cons, List.map_append]

/-- C8: after any sequence of `add_documents` calls with pairwise-distinct
document ids starting from a fresh store (and no deletions), the dict keys in
insertion order are exactly the added ids in order, and the vector at every
index position `i` is the embedding text of the `i`-th document of the dict —
so mapping a hit position back through the key order always yields the
document whose vector was hit. -/
theorem c8_position_invariant (batches : List (List MuseumDocument))
    (hnd : (batches.flatten.map (fun d => d.doc_id)).Nodup) :
    (buildStore batches).documents.map Prod.fst
        = batches.flatten.map (fun d => d.doc_id) ∧
    ∀ i : Nat, (indexTexts (buildStore batches)).get? i
        = ((buildStore batches).documents.map (fun p => embedText p.2)).get? i := by
  obtain ⟨h1, h2⟩ := buildStore_go batches emptyStore rfl (by simpa using hnd)
  refine ⟨by simpa using h2, fun i => ?_⟩
  unfold buildStore
  rw [h1]

/-- C8 witness: two singleton batches with distinct ids. -/
theorem c8_witness :
    (buildStore [[docA], [docB]]).documents.map Prod.fst
        = ([[docA], [docB]] : List (List MuseumDocument)).flatten.map
            (fun d => d.doc_id) ∧
    ∀ i : Nat, (indexTexts (buildStore [[docA], [docB]])).get? i
        = ((buildStore [[docA], [docB]]).documents.map
            (fun p => embedText p.2)).get? i :=
  c8_position_invariant [[docA], [docB]] (by decide)

/-! ## C2: the fallback merge -/

/-- Unfolding of `mergeGo` on a cons cell. -/
theorem mergeGo_cons (k : Int) (existing : List String) (doc : MuseumDocument)
    (score : ℚ) (rest : List (MuseumDocument × ℚ)) (docs : List MuseumDocument)
    (scores : List ℚ) :
    mergeGo k existing ((doc, score) :: rest) docs scores =
      if existing.contains doc.doc_id then mergeGo k existing rest docs scores
      else
        if k ≤ ((docs ++ [doc]).length : Int) then
          (docs ++ [doc], scores ++ [score * (9 / 10)])
        else mergeGo k existing rest (docs ++ [doc]) (scores ++ [score * (9 / 10)]) := rfl

/-- What the merge loop appends: a sublist of the fallback pool, fresh ids
only, scores multiplied by 0.9. -/
theorem mergeGo_spec (k : Int) (existing : List String) :
    ∀ (fallback : List (MuseumDocument × ℚ)) (docs : List MuseumDocument)
      (scores : List ℚ),
      ∃ chosen : List (MuseumDocument × ℚ),
        chosen.Sublist fallback ∧
        (mergeGo k existing fallback docs scores).1 = docs ++ chosen.map Prod.fst ∧
        (mergeGo k existing fallback docs scores).2
            = scores ++ chosen.map (fun p => p.2 * (9 / 10)) ∧
        ∀ p ∈ chosen, ¬ p.1.doc_id ∈ existing := by
  intro fallback
  induction fallback with
  | nil =>
    intro docs scores
    exact ⟨[], List.nil_sublist _, by simp [mergeGo], by simp [mergeGo], by simp⟩
  | cons hd rest ih =>
    intro docs scores
    obtain ⟨doc, score⟩ := hd
    rw [mergeGo_cons]
    by_cases hex : existing.contains doc.doc_id
    · rw [if_pos hex]
      obtain ⟨chosen, hsub, hd1, hd2, hd3⟩ := ih docs scores
      exact ⟨chosen, hsub.cons _, hd1, hd2, hd3⟩
    · rw [if_neg hex]
      have hfresh : ¬ doc.doc_id ∈ existing := by
        intro hm
        exact hex (List.elem_eq_true_of_mem hm)
      by_cases hbrk : k ≤ (((docs ++ [doc]).length : Nat) : Int)
      · rw [if_pos hbrk]
        refine ⟨[(doc, score)], ?_, by simp, by simp, ?_⟩
        · exact (List.nil_sublist rest).cons₂ _
        · intro p hp
          simp only [List.mem_singleton] at hp
          subst hp
          exact hfresh
      · rw [if_neg hbrk]
        obtain ⟨chosen, hsub, hd1, hd2, hd3⟩ :=
          ih (docs ++ [doc]) (scores ++ [score * (9 / 10)])
        refine ⟨(doc, score) :: chosen, hsub.cons₂ _, ?_, ?_, ?_⟩
        · rw [hd1]; simp
        · rw [hd2]; simp
        · intro p hp
          rcases List.mem_cons.mp hp with hp | hp
          · subst hp; exact hfresh
          · exact hd3 p hp

/-- The merge loop stops at `top_k` results or exhausts the fallback pool. -/
theorem mergeGo_length (k : Int) (existing : List String) :
    ∀ (fallback : List (MuseumDocument × ℚ)) (docs : List MuseumDocument)
      (scores : List ℚ), (docs.length : Int) < k →
      ((mergeGo k existing fallback docs scores).1.length : Int) ≤ k ∧
      (((mergeGo k existing fallback docs scores).1.length : Int) = k ∨
        ∀ p ∈ fallback, p.1.doc_id ∈ existing ∨
          p.1 ∈ (mergeGo k existing fallback docs scores).1) := by
  intro fallback
  induction fallback with
  | nil =>
    intro docs scores hlt
    constructor
    · simp only [mergeGo]; omega
    · right; intro p hp; simp at hp
  | cons hd rest ih =>
    intro docs scores hlt
    obtain ⟨doc, score⟩ := hd
    rw [mergeGo_cons]
    by_cases hex : existing.contains doc.doc_id
    · rw [if_pos hex]
      have hmem : doc.doc_id ∈ existing := List.mem_of_elem_eq_true hex
      obtain ⟨hle, hor⟩ := ih docs scores hlt
      refine ⟨hle, ?_⟩
      rcases hor with h | h
      · exact Or.inl h
      · right
        intro p hp
        rcases List.mem_cons.mp hp with hp | hp
        · subst hp; exact Or.inl hmem
        · exact h p hp
    · rw [if_neg hex]
      by_cases hbrk : k ≤ (((docs ++ [doc]).length : Nat) : Int)
      · rw [if_pos hbrk]
        have hlen : (((docs ++ [doc]).length : Nat) : Int) = k := by
          simp only [List.length_append, List.length_singleton] at *
          push_cast at *
          omega
        exact ⟨le_of_eq hlen, Or.inl hlen⟩
      · rw [if_neg hbrk]
        have hlt' : (((docs ++ [doc]).length : Nat) : Int) < k := by omega
        obtain ⟨hle, hor⟩ := ih (docs ++ [doc]) (scores ++ [score * (9 / 10)]) hlt'
        refine ⟨hle, ?_⟩
        rcases hor with h | h
        · exact Or.inl h
        · right
          intro p hp
          rcases List.mem_cons.mp hp with hp | hp
          · subst hp
            right
            obtain ⟨chosen, _, hd1, _, _⟩ :=
              mergeGo_spec k existing rest (docs ++ [doc]) (scores ++ [score * (9 / 10)])
            rw [hd1]
            exact List.mem_append_left _ (List.mem_append_right _ (List.mem_singleton.mpr rfl))
          · exact h p hp

/-- A successful nonnegative `pyIndex` lookup is an in-range `get?`. -/
theorem pyIndex_some_pos {α : Type} (xs : List α) (i : Int) (a : α) (h0 : 0 ≤ i)
    (h : pyIndex xs i = some a) :
    i < (xs.length : Int) ∧ xs.get? i.toNat = some a := by
  by_cases hl : i < (xs.length : Int)
  · rw [pyIndex_pos xs i h0 hl] at h
    exact ⟨hl, h⟩
  · exfalso
    have h1 : ¬ i < 0 := by omega
    simp only [pyIndex, h1, if_false] at h
    rw [if_neg (by omega)] at h
    simp at h

/-- On a duplicate-free list, two nonnegative Python indices holding the same
element are equal. -/
theorem pyIndex_inj {α : Type} (xs : List α) (hnd : xs.Nodup) (i j : Int) (a : α)
    (h0i : 0 ≤ i) (h0j : 0 ≤ j)
    (hi : pyIndex xs i = some a) (hj : pyIndex xs j = some a) : i = j := by
  obtain ⟨hib, hi'⟩ := pyIndex_some_pos xs i a h0i hi
  obtain ⟨hjb, hj'⟩ := pyIndex_some_pos xs j a h0j hj
  have hlen : i.toNat < xs.length := by omega
  have : i.toNat = j.toNat := by
    apply List.get?_inj hlen hnd
    rw [hi', hj']
  omega

/-- In a well-formed store dict, a successful lookup returns the document whose
id is the key. -/
theorem lookupD_wf (docs : List (String × MuseumDocument))
    (hwf : ∀ p ∈ docs, p.2.doc_id = p.1) (key : String) (doc : MuseumDocument)
    (h : lookupD docs key = some doc) : doc.doc_id = key := by
  induction docs with
  | nil => simp [lookupD] at h
  | cons p rest ih =>
    obtain ⟨k', v⟩ := p
    rw [lookupD] at h
    split at h
    · rename_i heq
      injection h with h
      subst h
      have hv := hwf (k', v) (List.mem_cons_self _ _)
      simp only at hv
      rw [hv, heq]
    · exact ih (fun p hp => hwf p (List.mem_cons_of_mem _ hp)) h

/-- Documents returned by the search loop have pairwise-distinct ids, and each
comes from a distinct hit position mapped through the key order. -/
theorem searchLoop_ids (docs : List (String × MuseumDocument))
    (hwf : ∀ p ∈ docs, p.2.doc_id = p.1) (hkeys : (docs.map Prod.fst).Nodup)
    (ft fa : Option (List String)) (k : Int) :
    ∀ (hits : List (Int × ℚ)) (count : Nat) (res : List (MuseumDocument × ℚ)),
      (∀ p ∈ hits, 0 ≤ p.1) → (hits.map Prod.fst).Nodup →
      searchLoop docs ft fa k count hits = .ok res →
      (res.map (fun p => p.1.doc_id)).Nodup ∧
      ∀ p ∈ res, ∃ h ∈ hits, 0 ≤ h.1 ∧
        pyIndex (docs.map Prod.fst) h.1 = some p.1.doc_id := by
  intro hits
  induction hits with
  | nil =>
    intro count res hpos hnd h
    simp only [searchLoop] at h
    obtain rfl : ([] : List (MuseumDocument × ℚ)) = res := by injection h
    exact ⟨by simp, by simp⟩
  | cons hd rest ih =>
    intro count res hpos hnd h
    obtain ⟨idx, score⟩ := hd
    have hpos0 : 0 ≤ idx := hpos (idx, score) (List.mem_cons_self _ _)
    have hposrest : ∀ p ∈ rest, 0 ≤ p.1 :=
      fun p hp => hpos p (List.mem_cons_of_mem _ hp)
    rcases List.nodup_cons.mp (by simpa only [List.map_cons] using hnd) with
      ⟨hidxnotin, hndrest⟩
    rw [searchLoop_cons] at h
    split at h
    · obtain rfl : ([] : List (MuseumDocument × ℚ)) = res := by injection h
      exact ⟨by simp, by simp⟩
    · split at h
      · simp at h
      · rename_i key hkey
        split at h
        · simp at h
        · rename_i doc hdoc
          have hdocid : doc.doc_id = key := lookupD_wf docs hwf key doc hdoc
          have hpyid : pyIndex (docs.map Prod.fst) idx = some doc.doc_id := by
            rw [hdocid]; exact hkey
          split at h
          · split at h
            · obtain rfl : [(doc, score)] = res := by injection h
              refine ⟨by simp, ?_⟩
              intro p hp
              simp only [List.mem_singleton] at hp
              subst hp
              exact ⟨(idx, score), List.mem_cons_self _ _, hpos0, hpyid⟩
            · split at h
              · simp at h
              · rename_i tail htail
                obtain rfl : (doc, score) :: tail = res := by injection h
                obtain ⟨htnd, htfrom⟩ := ih (count + 1) tail hposrest hndrest htail
                constructor
                · simp only [List.map_cons]
                  refine List.nodup_cons.mpr ⟨?_, htnd⟩
                  intro hin
                  obtain ⟨p, hp, hpid⟩ := List.mem_map.mp hin
                  obtain ⟨hh, hhmem, hh0, hhpy⟩ := htfrom p hp
                  have heq : idx = hh.1 := by
                    apply pyIndex_inj (docs.map Prod.fst) hkeys idx hh.1 doc.doc_id
                      hpos0 hh0 hpyid
                    rw [hhpy, hpid]
                  apply hidxnotin
                  rw [heq]
                  exact List.mem_map_of_mem Prod.fst hhmem
                · intro p hp
                  rcases List.mem_cons.mp hp with hp | hp
                  · subst hp
                    exact ⟨(idx, score), List.mem_cons_self _ _, hpos0, hpyid⟩
                  · obtain ⟨hh, hhmem, hh0, hhpy⟩ := htfrom p hp
                    exact ⟨hh, List.mem_cons_of_mem _ hhmem, hh0, hhpy⟩
          · obtain ⟨htnd, htfrom⟩ := ih count res hposrest hndrest h
            refine ⟨htnd, ?_⟩
            intro p hp
            obtain ⟨hh, hhmem, hh0, hhpy⟩ := htfrom p hp
            exact ⟨hh, List.mem_cons_of_mem _ hhmem, hh0, hhpy⟩

/-- Search results of a well-formed store carry pairwise-distinct document
ids whenever the ranking oracle has distinct positions. -/
theorem search_ids_nodup (vs : VectorStore) (s : Settings) (ranking : List (Int × ℚ))
    (tk? : Option Int) (ft fa : Option (List String)) (res : List (MuseumDocument × ℚ))
    (hwf : ∀ p ∈ vs.documents, p.2.doc_id = p.1)
    (hkeys : (vs.documents.map Prod.fst).Nodup)
    (hpos : ∀ p ∈ ranking, 0 ≤ p.1)
    (hrnd : (ranking.map Prod.fst).Nodup)
    (hok : VectorStore.search vs s ranking tk? ft fa = .ok res) :
    (res.map (fun p => p.1.doc_id)).Nodup := by
  unfold VectorStore.search at hok
  split at hok
  · obtain rfl : ([] : List (MuseumDocument × ℚ)) = res := by injection hok
    simp
  · split at hok
    · simp at hok
    · rename_i hits hhits
      unfold faissSearch at hhits
      split at hhits
      · simp at hhits
      · obtain rfl : ranking.take _ = hits := by injection hhits
        refine (searchLoop_ids vs.documents hwf hkeys ft fa _ _ 0 res ?_ ?_ hok).1
        · exact fun p hp => hpos p (List.take_subset _ _ hp)
        · exact ((List.take_sublist _ _).map Prod.fst).nodup hrnd

/-- C2 counterexample: with `topK = 2` and a filtered search returning a
single document (fewer than `topK`), `execute` issues its second, unfiltered
search requesting `top_k = 4 = topK * 2` results — not `topK` results as the
claim states.  (The rest of the merge behaves as described: the one fresh
fallback document `docB` is appended with its score `1/2` scaled by `0.9`.) -/
theorem c2_counterexample :
    VectorSearchStep.execute sTwo vsAB rankingAB entX
        = .ok ⟨[docA, docB], [1, 1/2 * (9/10)],
            [⟨"x", some 2, some ["x"], none⟩, ⟨"x", some 4, none, none⟩]⟩ ∧
      sTwo.top_k = 2 ∧ ¬ (some (2 * 2 : Int) = some (2 : Int)) :=
  ⟨rfl, rfl, by decide⟩

/-- Rewriting the composed id projection of a result list. -/
theorem map_doc_id_fst (l : List (MuseumDocument × ℚ)) :
    (l.map Prod.fst).map (fun d => d.doc_id) = l.map (fun q => q.1.doc_id) := by
  rw [List.map_map]
  rfl

/-- C2 (amended): whenever the filtered search returns fewer than `topK`
documents, `execute` issues a second, unfiltered search **for `topK * 2`
results** with the same query; it appends only fallback documents whose id is
not already present, in pool order, each with its score multiplied by `0.9`;
it stops at `topK` total results or when the fallback pool is exhausted; and
no document id appears twice in the final result. -/
theorem c2_fallback_amended (s : Settings) (vs : VectorStore)
    (ranking : List (Int × ℚ)) (entities : Entities)
    (res1 res2 : List (MuseumDocument × ℚ)) (out : ExecOut)
    (hwf : ∀ p ∈ vs.documents, p.2.doc_id = p.1)
    (hkeys : (vs.documents.map Prod.fst).Nodup)
    (hpos : ∀ p ∈ ranking, 0 ≤ p.1)
    (hrnd : (ranking.map Prod.fst).Nodup)
    (h1 : filteredCall s vs ranking entities = .ok res1)
    (h2 : fallbackCall s vs ranking = .ok res2)
    (hshort : (res1.length : Int) < s.top_k)
    (hout : VectorSearchStep.execute s vs ranking entities = .ok out) :
    out.calls = [⟨buildSearchQuery entities, some s.top_k, entityFilterTags entities,
        entityFilterAudience entities⟩,
      ⟨buildSearchQuery entities, some (s.top_k * 2), none, none⟩] ∧
    (∃ chosen : List (MuseumDocument × ℚ), chosen.Sublist res2 ∧
      out.search_results = res1.map Prod.fst ++ chosen.map Prod.fst ∧
      out.similarity_scores
          = res1.map Prod.snd ++ chosen.map (fun p => p.2 * (9 / 10)) ∧
      ∀ p ∈ chosen, ¬ p.1.doc_id ∈ res1.map (fun q => q.1.doc_id)) ∧
    (out.search_results.length : Int) ≤ s.top_k ∧
    ((out.search_results.length : Int) = s.top_k ∨
      ∀ p ∈ res2, p.1.doc_id ∈ res1.map (fun q => q.1.doc_id) ∨
        p.1 ∈ out.search_results) ∧
    (out.search_results.map (fun d => d.doc_id)).Nodup := by
  unfold VectorSearchStep.execute at hout
  rw [h1] at hout
  simp only at hout
  have hshort' : ((res1.map Prod.fst).length : Int) < s.top_k := by
    rwa [List.length_map]
  rw [if_pos hshort', h2] at hout
  simp only at hout
  injection hout with hout
  subst hout
  simp only [mergeFallback]
  obtain ⟨chosen, hsub, hm1, hm2, hm3⟩ :=
    mergeGo_spec s.top_k ((res1.map Prod.fst).map (fun d => d.doc_id)) res2
      (res1.map Prod.fst) (res1.map Prod.snd)
  obtain ⟨hlenle, hlenor⟩ :=
    mergeGo_length s.top_k ((res1.map Prod.fst).map (fun d => d.doc_id)) res2
      (res1.map Prod.fst) (res1.map Prod.snd) hshort'
  have hslice1 : pySliceTo (mergeGo s.top_k ((res1.map Prod.fst).map
        (fun d => d.doc_id)) res2 (res1.map Prod.fst) (res1.map Prod.snd)).1 s.top_k
      = (mergeGo s.top_k ((res1.map Prod.fst).map (fun d => d.doc_id)) res2
        (res1.map Prod.fst) (res1.map Prod.snd)).1 :=
    pySliceTo_all _ _ hlenle
  have hlen2 : (((mergeGo s.top_k ((res1.map Prod.fst).map (fun d => d.doc_id)) res2
      (res1.map Prod.fst) (res1.map Prod.snd)).2.length : Nat) : Int) ≤ s.top_k := by
    have hl12 : (mergeGo s.top_k ((res1.map Prod.fst).map (fun d => d.doc_id)) res2
        (res1.map Prod.fst) (res1.map Prod.snd)).2.length
        = (mergeGo s.top_k ((res1.map Prod.fst).map (fun d => d.doc_id)) res2
          (res1.map Prod.fst) (res1.map Prod.snd)).1.length := by
      rw [hm1, hm2]
      simp
    rw [hl12]
    exact hlenle
  have hslice2 : pySliceTo (mergeGo s.top_k ((res1.map Prod.fst).map
        (fun d => d.doc_id)) res2 (res1.map Prod.fst) (res1.map Prod.snd)).2 s.top_k
      = (mergeGo s.top_k ((res1.map Prod.fst).map (fun d => d.doc_id)) res2
        (res1.map Prod.fst) (res1.map Prod.snd)).2 :=
    pySliceTo_all _ _ hlen2
  refine ⟨by trivial, ?_, ?_, ?_, ?_⟩
  · refine ⟨chosen, hsub, ?_, ?_, ?_⟩
    · rw [hslice1, hm1]
    · rw [hslice2, hm2]
    · intro p hp
      rw [← map_doc_id_fst]
      exact hm3 p hp
  · rw [hslice1]
    exact hlenle
  · rw [hslice1]
    rcases hlenor with h | h
    · exact Or.inl h
    · right
      intro p hp
      rcases h p hp with h' | h'
      · exact Or.inl (by rwa [← map_doc_id_fst])
      · exact Or.inr h'
  · rw [hslice1, hm1, List.map_append, map_doc_id_fst]
    have hch : (chosen.map Prod.fst).map (fun d => d.doc_id)
        = chosen.map (fun q => q.1.doc_id) := map_doc_id_fst chosen
    rw [hch]
    have hnd1 : (res1.map (fun p => p.1.doc_id)).Nodup :=
      search_ids_nodup vs s ranking (some s.top_k) (entityFilterTags entities)
        (entityFilterAudience entities) res1 hwf hkeys hpos hrnd h1
    have hnd2 : (res2.map (fun p => p.1.doc_id)).Nodup :=
      search_ids_nodup vs s ranking (some (s.top_k * 2)) none none res2
        hwf hkeys hpos hrnd h2
    have hchnd : (chosen.map (fun p => p.1.doc_id)).Nodup :=
      (hsub.map (fun p => p.1.doc_id)).nodup hnd2
    refine List.nodup_append.mpr ⟨hnd1, hchnd, ?_⟩
    intro a ha hcontra
    obtain ⟨p, hp, hpid⟩ := List.mem_map.mp hcontra
    apply hm3 p hp
    rw [map_doc_id_fst, hpid]
    exact ha

/-- The filtered-search result in the concrete C2 scenario. -/
def c2res1 : List (MuseumDocument × ℚ) := [(docA, 1)]

/-- The unfiltered fallback pool in the concrete C2 scenario. -/
def c2res2 : List (MuseumDocument × ℚ) := [(docA, 1), (docB, 1/2)]

/-- The pipeline output in the concrete C2 scenario. -/
def c2out : ExecOut :=
  ⟨[docA, docB], [1, 1/2 * (9/10)],
    [⟨"x", some 2, some ["x"], none⟩, ⟨"x", some 4, none, none⟩]⟩

/-- C2 witness: the amended claim at the concrete two-document store where the
filtered search returns one of two requested documents. -/
theorem c2_witness :
    c2out.calls = [⟨buildSearchQuery entX, some sTwo.top_k, entityFilterTags entX,
        entityFilterAudience entX⟩,
      ⟨buildSearchQuery entX, some (sTwo.top_k * 2), none, none⟩] ∧
    (∃ chosen : List (MuseumDocument × ℚ), chosen.Sublist c2res2 ∧
      c2out.search_results = c2res1.map Prod.fst ++ chosen.map Prod.fst ∧
      c2out.similarity_scores
          = c2res1.map Prod.snd ++ chosen.map (fun p => p.2 * (9 / 10)) ∧
      ∀ p ∈ chosen, ¬ p.1.doc_id ∈ c2res1.map (fun q => q.1.doc_id)) ∧
    (c2out.search_results.length : Int) ≤ sTwo.top_k ∧
    ((c2out.search_results.length : Int) = sTwo.top_k ∨
      ∀ p ∈ c2res2, p.1.doc_id ∈ c2res1.map (fun q => q.1.doc_id) ∨
        p.1 ∈ c2out.search_results) ∧
    (c2out.search_results.map (fun d => d.doc_id)).Nodup :=
  c2_fallback_amended sTwo vsAB rankingAB entX c2res1 c2res2 c2out
    (by decide) (by decide) (by decide) (by decide) rfl rfl (by decide) rfl

/-! ## C6: chunk shape -/

theorem pySliceIdx_le_len (len : Nat) (i : Int) : pySliceIdx len i ≤ len := by
  simp only [pySliceIdx]
  split <;> omega

theorem pySliceIdx_diff_le (len : Nat) (s e : Int) (h : s ≤ e) :
    pySliceIdx len e - pySliceIdx len s ≤ (e - s).toNat := by
  simp only [pySliceIdx]
  split <;> split <;> omega

theorem pySlice_length_le (t : List Char) (s e : Int) :
    (pySlice t s e).length ≤ pySliceIdx t.length e - pySliceIdx t.length s := by
  have hb := pySliceIdx_le_len t.length e
  simp only [pySlice, List.length_drop, List.length_take]
  omega

theorem pySlice_middle (t : List Char) (s e : Int) :
    ∃ pre post, t = pre ++ pySlice t s e ++ post := by
  refine ⟨(t.take (pySliceIdx t.length e)).take (pySliceIdx t.length s),
    t.drop (pySliceIdx t.length e), ?_⟩
  simp only [pySlice]
  rw [List.take_append_drop, List.take_append_drop]

theorem strip_length_le (l : List Char) : (strip l).length ≤ l.length := by
  have h1 : (l.dropWhile isWs).length ≤ l.length :=
    (List.dropWhile_sublist _).length_le
  have h2 : ((l.dropWhile isWs).reverse.dropWhile isWs).length
      ≤ (l.dropWhile isWs).reverse.length :=
    (List.dropWhile_sublist _).length_le
  have h3 : (strip l).length = ((l.dropWhile isWs).reverse.dropWhile isWs).length :=
    List.length_reverse _
  have h4 : (l.dropWhile isWs).reverse.length = (l.dropWhile isWs).length :=
    List.length_reverse _
  omega

theorem reverse_dropWhile_append (m : List Char) (p : Char → Bool) :
    m = (m.reverse.dropWhile p).reverse ++ (m.reverse.takeWhile p).reverse := by
  conv_lhs => rw [← List.reverse_reverse m,
    ← List.takeWhile_append_dropWhile (p := p) (l := m.reverse)]
  rw [List.reverse_append]

theorem strip_middle (l : List Char) : ∃ pre post, l = pre ++ strip l ++ post := by
  refine ⟨l.takeWhile isWs, ((l.dropWhile isWs).reverse.takeWhile isWs).reverse, ?_⟩
  simp only [strip]
  rw [List.append_assoc, ← reverse_dropWhile_append (l.dropWhile isWs) isWs,
    List.takeWhile_append_dropWhile]

theorem foldl_max_cases (L : List Nat) : ∀ x : Int,
    L.foldl (fun acc i => max acc (i : Int)) x = x ∨
    ∃ i ∈ L, L.foldl (fun acc i => max acc (i : Int)) x = (i : Int) := by
  induction L with
  | nil => intro x; exact Or.inl rfl
  | cons j rest ih =>
    intro x
    have hstep : (j :: rest).foldl (fun acc i => max acc (i : Int)) x
        = rest.foldl (fun acc i => max acc (i : Int)) (max x (j : Int)) := rfl
    rcases ih (max x (j : Int)) with h | ⟨i, hi, hfi⟩
    · by_cases hxj : (j : Int) ≤ x
      · left
        rw [hstep, h]
        omega
      · right
        refine ⟨j, List.mem_cons_self _ _, ?_⟩
        rw [hstep, h]
        omega
    · right
      exact ⟨i, List.mem_cons_of_mem _ hi, by rw [hstep]; exact hfi⟩

theorem rfind_bounds (text : List Char) (c : Char) (a b : Int) :
    rfind text c a b = -1 ∨
    (0 ≤ rfind text c a b ∧ rfind text c a b < (pySliceIdx text.length b : Int)) := by
  unfold rfind
  rcases foldl_max_cases ((List.range (pySliceIdx text.length b)).filter
      (fun i => pySliceIdx text.length a ≤ i && text.getD i ' ' == c)) (-1) with
    h | ⟨i, hi, hfi⟩
  · exact Or.inl h
  · right
    rw [hfi]
    have := List.mem_range.mp (List.mem_of_mem_filter hi)
    omega

theorem sentenceEnd_bounds (text : List Char) (start e0 : Int)
    (h : sentenceEnd text start e0 ≠ -1) :
    0 ≤ sentenceEnd text start e0 ∧
    sentenceEnd text start e0 < (pySliceIdx text.length e0 : Int) := by
  rcases rfind_bounds text '.' start e0 with hd | hd
  · rcases rfind_bounds text '!' start e0 with hb | hb
    · rcases rfind_bounds text '?' start e0 with hq | hq
      · exact absurd (by simp [sentenceEnd, hd, hb, hq]) h
      · have he : sentenceEnd text start e0 = rfind text '?' start e0 := by
          simp [sentenceEnd, hd, hb]
        rw [he]
        exact hq
    · have hne : ¬ rfind text '!' start e0 = -1 := by omega
      have he : sentenceEnd text start e0 = rfind text '!' start e0 := by
        simp [sentenceEnd, hd, hne]
      rw [he]
      exact hb
  · have hne : ¬ rfind text '.' start e0 = -1 := by omega
    have he : sentenceEnd text start e0 = rfind text '.' start e0 := by
      simp [sentenceEnd, hne]
    rw [he]
    exact hd

theorem chunkEnd_idx_le (text : List Char) (cs start : Int) :
    pySliceIdx text.length (chunkEnd text cs start)
      ≤ pySliceIdx text.length (start + cs) := by
  unfold chunkEnd
  split
  · split
    · rename_i hse
      obtain ⟨hse0, hselt⟩ := sentenceEnd_bounds text start (start + cs) hse.1
      have h1 : pySliceIdx text.length (sentenceEnd text start (start + cs) + 1)
          ≤ (sentenceEnd text start (start + cs) + 1).toNat := by
        simp only [pySliceIdx]
        split <;> omega
      omega
    · exact le_refl _
  · exact le_refl _

theorem chunkBody_chunk_spec (text : List Char) (cs ov start : Int) (hcs : 0 ≤ cs)
    (c : List Char) (h : (chunkBody text cs ov start).2 = some c) :
    c.length ≤ cs.toNat ∧ ∃ pre post, text = pre ++ c ++ post := by
  simp only [chunkBody] at h
  split at h
  · exact absurd h (by simp)
  · injection h with h
    subst h
    constructor
    · have l1 := strip_length_le (pySlice text start (chunkEnd text cs start))
      have l2 := pySlice_length_le text start (chunkEnd text cs start)
      have l3 := chunkEnd_idx_le text cs start
      have l4 := pySliceIdx_diff_le text.length start (start + cs) (by omega)
      omega
    · obtain ⟨p1, s1, hps1⟩ := pySlice_middle text start (chunkEnd text cs start)
      obtain ⟨p2, s2, hps2⟩ := strip_middle (pySlice text start (chunkEnd text cs start))
      refine ⟨p1 ++ p2, s2 ++ s1, ?_⟩
      calc text = p1 ++ pySlice text start (chunkEnd text cs start) ++ s1 := hps1
        _ = p1 ++ (p2 ++ strip (pySlice text start (chunkEnd text cs start)) ++ s2)
              ++ s1 := congrArg (fun x => p1 ++ x ++ s1) hps2
        _ = (p1 ++ p2) ++ strip (pySlice text start (chunkEnd text cs start))
              ++ (s2 ++ s1) := by simp [List.append_assoc]

theorem chunkLoop_spec (text : List Char) (cs ov : Int) (hcs : 0 ≤ cs) :
    ∀ (fuel : Nat) (start : Int) (acc chunks : List (List Char)),
      (∀ c ∈ acc, c.length ≤ cs.toNat ∧ ∃ pre post, text = pre ++ c ++ post) →
      chunkLoop text cs ov fuel start acc = some chunks →
      ∀ c ∈ chunks, c.length ≤ cs.toNat ∧ ∃ pre post, text = pre ++ c ++ post := by
  intro fuel
  induction fuel with
  | zero =>
    intro start acc chunks hacc h
    exact absurd h (by simp [chunkLoop])
  | succ n ih =>
    intro start acc chunks hacc h
    simp only [chunkLoop] at h
    split at h
    · rcases hcb : chunkBody text cs ov start with ⟨startNew, emitted⟩
      rw [hcb] at h
      simp only at h
      cases emitted with
      | none =>
        split at h
        · injection h with h
          subst h
          exact hacc
        · exact ih startNew acc chunks hacc h
      | some c =>
        have hc : (chunkBody text cs ov start).2 = some c := by rw [hcb]
        have hspec := chunkBody_chunk_spec text cs ov start hcs c hc
        have hacc' : ∀ x ∈ acc ++ [c],
            x.length ≤ cs.toNat ∧ ∃ pre post, text = pre ++ x ++ post := by
          intro x hx
          rcases List.mem_append.mp hx with hx | hx
          · exact hacc x hx
          · simp only [List.mem_singleton] at hx
            subst hx
            exact hspec
        split at h
        · injection h with h
          subst h
          exact hacc'
        · exact ih startNew (acc ++ [c]) chunks hacc' h
    · injection h with h
      subst h
      exact hacc

/-- C6 (amended): every chunk `chunk_text` produces is the whitespace-stripped
content of one contiguous window of the input of at most `chunk_size`
characters: each chunk is a contiguous substring of the original text and its
length never exceeds `chunk_size` — even when no sentence boundary exists, no
oversized chunk occurs.  Exact reconstruction of the text by concatenating the
chunks minus the overlap does NOT hold, because window edges are stripped of
whitespace (see the counterexample). -/
theorem c6_chunks_amended (fuel : Nat) (text : List Char) (cs ov : Int)
    (hcs : 0 ≤ cs) (chunks : List (List Char))
    (h : chunk_text fuel text cs ov = some chunks) :
    ∀ c ∈ chunks, c.length ≤ cs.toNat ∧ ∃ pre post, text = pre ++ c ++ post := by
  unfold chunk_text at h
  split at h
  · rename_i hle
    injection h with h
    subst h
    intro c hc
    simp only [List.mem_singleton] at hc
    subst hc
    exact ⟨by omega, [], [], by simp⟩
  · exact chunkLoop_spec text cs ov hcs fuel 0 [] chunks (by simp) h

/-- C6 counterexample: on the 11-character text `abcd efghij` with
`chunk_size = 5` and `overlap = 0`, the chunks are `abcd`, `efghi`, `j` — the
space at the first window edge is stripped — so concatenating the chunks minus
the overlap yields `abcdefghij`, which is not the original text. -/
theorem c6_counterexample :
    chunk_text 10 ("abcd efghij".data) 5 0
        = some ["abcd".data, "efghi".data, "j".data] ∧
    specConcatMinusOverlap ["abcd".data, "efghi".data, "j".data] 0
        ≠ "abcd efghij".data ∧
    (5 : Int) < ("abcd efghij".data.length : Int) :=
  ⟨by decide, by decide, by decide⟩

/-- C6 witness: the amended claim at the counterexample input. -/
theorem c6_witness :
    (0 : Int) ≤ 5 ∧
    ∀ c ∈ (["abcd".data, "efghi".data, "j".data] : List (List Char)),
      c.length ≤ (5 : Int).toNat ∧
        ∃ pre post, "abcd efghij".data = pre ++ c ++ post :=
  ⟨by decide,
    c6_chunks_amended 10 ("abcd efghij".data) 5 0 (by decide)
      ["abcd".data, "efghi".data, "j".data] (by decide)⟩
